import Mathlib

/-!
Verification of the dashboard repository (task list + weekly kanban event
board). The relevant logic lives in `src/components/Footer.tsx` (the
`KanbanBoard` component, despite the file name, plus helper functions) and
`src/components/TodoList.tsx`. This file gives a shallow embedding of that
logic and proves the specification claims about it.

Date model: a JavaScript `Date` value is embedded as an `Instant`, a pair of
an epoch day number (`day : Int`, day 0 = 1970-01-01, which was a Thursday)
and a time-of-day component (`tod : Nat`, e.g. minutes past local midnight;
its unit never matters, only whether it is zero and whether it is preserved).
`date-fns` operations used by the source:
  - `isSameDay a b` compares the calendar day only;
  - `addDays d n` shifts the day, keeping the time of day;
  - `startOfWeek d` with week starting on Sunday returns the Sunday on or
    before `d`, at local midnight.
-/

/-- Embedding of a JavaScript `Date`: epoch day plus time of day. -/
structure Instant where
  day : Int
  tod : Nat
deriving DecidableEq, Repr

/-- Day of week of an epoch day: 0 = Sunday. Epoch day 0 (1970-01-01) was a
Thursday, hence the shift by 4. -/
def dayOfWeek (d : Int) : Int := (d + 4) % 7

/-- `date-fns` `isSameDay`: calendar-day equality, ignoring time of day. -/
def isSameDay (a b : Instant) : Bool := a.day == b.day

/-- `date-fns` `addDays`: shifts the calendar day, keeps the time of day. -/
def addDaysI (t : Instant) (n : Int) : Instant := ⟨t.day + n, t.tod⟩

/-- `date-fns` `startOfWeek` with `weekStartsOn: 0`: the Sunday on or before
the given instant, at local midnight. -/
def startOfWeek (t : Instant) : Instant := ⟨t.day - dayOfWeek t.day, 0⟩

/-- An event document as read by the board subscription in `Footer.tsx`
(`interface Event`): id, title, optional "HH:MM" time (empty string when the
time input was left blank), and start/end instants. The source field `end`
is a Lean keyword and is embedded as `endD`. -/
structure Event where
  id : String
  title : String
  time : String
  start : Instant
  endD : Instant
deriving DecidableEq, Repr

/-- `Footer.tsx` line 82: `boardActiveRange`, the 15 consecutive days from
`today - 7` through `today + 7`, each built by `addDays(today, i - 7)`. -/
def boardActiveRange (today : Instant) : List Instant :=
  (List.range 15).map (fun (i : Nat) => addDaysI today ((i : Int) - 7))

/-- `Footer.tsx` lines 83-85: `activeDays`, the candidate range filtered to
days holding at least one event start or equal to today (calendar-day
comparison). The spec calls this derivation `computeActiveDays`. -/
def computeActiveDays (today : Instant) (events : List Event) : List Instant :=
  (boardActiveRange today).filter
    (fun day => events.any (fun e => isSameDay e.start day) || isSameDay day today)

theorem boardActiveRange_pairwise (today : Instant) :
    List.Pairwise (fun a b => a.day < b.day) (boardActiveRange today) := by
  unfold boardActiveRange
  refine List.Pairwise.map _ ?_ (List.pairwise_lt_range 15)
  intro a b hab
  simp only [addDaysI]
  omega

theorem mem_boardActiveRange_self (today : Instant) :
    today ∈ boardActiveRange today := by
  unfold boardActiveRange
  rw [List.mem_map]
  refine ⟨7, by decide, ?_⟩
  obtain ⟨d, td⟩ := today
  simp [addDaysI]

/-- C1: for any event collection and reference day, `computeActiveDays`
returns calendar days in strictly ascending order (hence without
duplicates), always contains today, and retains a candidate day of the
15-day range `today - 7 .. today + 7` if and only if that day is the same
calendar day as today or at least one event starts on that calendar day. -/
theorem computeActiveDays_spec (today : Instant) (events : List Event) :
    List.Pairwise (fun a b => a.day < b.day) (computeActiveDays today events)
    ∧ today ∈ computeActiveDays today events
    ∧ ∀ d ∈ boardActiveRange today,
        (d ∈ computeActiveDays today events ↔
          isSameDay d today = true ∨ ∃ e ∈ events, isSameDay e.start d = true) := by
  refine ⟨?_, ?_, ?_⟩
  · exact (boardActiveRange_pairwise today).filter _
  · unfold computeActiveDays
    rw [List.mem_filter]
    refine ⟨mem_boardActiveRange_self today, ?_⟩
    simp [isSameDay]
  · intro d hd
    unfold computeActiveDays
    rw [List.mem_filter]
    simp only [hd, true_and, Bool.or_eq_true, List.any_eq_true]
    exact or_comm

/-- Witness for C1 at a concrete input: the day `today - 7` is retained for
an empty event collection exactly when it coincides with today, which is
false; the iff is obtained from `computeActiveDays_spec` with its
membership hypothesis discharged by evaluation. -/
theorem computeActiveDays_spec_witness :
    (⟨-7, 0⟩ : Instant) ∈ computeActiveDays ⟨0, 0⟩ [] ↔
      isSameDay ⟨-7, 0⟩ ⟨0, 0⟩ = true ∨
        ∃ e ∈ ([] : List Event), isSameDay e.start ⟨-7, 0⟩ = true :=
  (computeActiveDays_spec ⟨0, 0⟩ []).2.2 ⟨-7, 0⟩ (by decide)

/-!
Concrete scenario for the active-day derivation. Epoch-day encoding of the
calendar dates used below: 2024-06-05 = 19879, 2024-06-12 = 19886 (a
Wednesday: `dayOfWeek 19886 = 3`), 2024-06-19 = 19893, 2024-06-20 = 19894.
The candidate range around 2024-06-12 is 2024-06-05 .. 2024-06-19, so
2024-06-20 (= today + 8) is not a candidate day.
-/

/-- C2 counterexample: with today = 2024-06-12 and events starting exactly on
2024-06-05 and 2024-06-20, `computeActiveDays` returns the two calendar days
[2024-06-05, 2024-06-12], not the claimed three-element sequence ending in
2024-06-20: that day lies outside the 15-day candidate range. -/
theorem computeActiveDays_scenario_counterexample :
    (computeActiveDays ⟨19886, 0⟩
        [⟨"e1", "A", "", ⟨19879, 0⟩, ⟨19879, 0⟩⟩,
         ⟨"e2", "B", "", ⟨19894, 0⟩, ⟨19894, 0⟩⟩]).map Instant.day = [19879, 19886]
    ∧ (computeActiveDays ⟨19886, 0⟩
        [⟨"e1", "A", "", ⟨19879, 0⟩, ⟨19879, 0⟩⟩,
         ⟨"e2", "B", "", ⟨19894, 0⟩, ⟨19894, 0⟩⟩]).map Instant.day
        ≠ [19879, 19886, 19894] := by
  constructor
  · decide
  · decide

/-- C2 amended: with today = 2024-06-12 and events starting exactly on
2024-06-05 and 2024-06-20, `computeActiveDays` returns the two-element
sequence [2024-06-05, 2024-06-12]; 2024-06-20 is today + 8 and therefore
outside the candidate range today - 7 .. today + 7. -/
theorem computeActiveDays_scenario :
    computeActiveDays ⟨19886, 0⟩
        [⟨"e1", "A", "", ⟨19879, 0⟩, ⟨19879, 0⟩⟩,
         ⟨"e2", "B", "", ⟨19894, 0⟩, ⟨19894, 0⟩⟩]
      = [⟨19879, 0⟩, ⟨19886, 0⟩] := by decide

/-- JavaScript `Array.prototype.slice` with nonnegative bounds: the elements
at indices `start .. stop - 1`. -/
def jsSlice (l : List α) (start stop : Nat) : List α := (l.take stop).drop start

/-- `Footer.tsx` line 88: `visibleBoardDays`, the slice
`activeDays.slice(boardWindowStart, boardWindowStart + 7)`. -/
def visibleBoardDays (activeDays : List Instant) (windowStart : Nat) : List Instant :=
  jsSlice activeDays windowStart (windowStart + 7)

/-- C6: the visible window is exactly the contiguous sub-sequence
`activeDays[windowStart : windowStart + 7]`, hence of length at most 7, and
since nothing clamps the offset, a non-empty active-day list together with an
offset at or past its length yields an empty visible window. -/
theorem visibleBoardDays_spec (activeDays : List Instant) (windowStart : Nat) :
    visibleBoardDays activeDays windowStart = (activeDays.drop windowStart).take 7
    ∧ (visibleBoardDays activeDays windowStart).length ≤ 7
    ∧ ∃ (l : List Instant) (ws : Nat),
        l ≠ [] ∧ l.length ≤ ws ∧ visibleBoardDays l ws = [] := by
  have h : visibleBoardDays activeDays windowStart
      = (activeDays.drop windowStart).take 7 :=
    (List.take_drop windowStart 7 activeDays).symm
  refine ⟨h, ?_, ⟨[⟨0, 0⟩], 1, by decide, by decide, by decide⟩⟩
  rw [h]
  simp [List.length_take]

/-!
Board window navigation, `Footer.tsx` lines 208-287. Both arrow buttons are
wrapped in the guard `activeDays.length > 7 && ...`; inside it, the
"previous" arrow is rendered exactly when `boardWindowStart > 0` and its
click handler runs `setBoardWindowStart(prev => prev - 1)`, and the "next"
arrow is rendered exactly when `boardWindowStart + 7 < activeDays.length`
and its click handler runs `setBoardWindowStart(prev => prev + 1)`. An
action is modelled as enabled when its button is rendered, and a step leaves
the offset unchanged when the action is disabled.
-/

def boardPrevEnabled (activeDays : List Instant) (windowStart : Nat) : Bool :=
  decide (7 < activeDays.length) && decide (0 < windowStart)

def boardNextEnabled (activeDays : List Instant) (windowStart : Nat) : Bool :=
  decide (7 < activeDays.length) && decide (windowStart + 7 < activeDays.length)

def boardPrevStep (activeDays : List Instant) (windowStart : Nat) : Nat :=
  if boardPrevEnabled activeDays windowStart then windowStart - 1 else windowStart

def boardNextStep (activeDays : List Instant) (windowStart : Nat) : Nat :=
  if boardNextEnabled activeDays windowStart then windowStart + 1 else windowStart

/-- C4 counterexample: with a single active day and offset 1, the offset is
positive and yet the "previous" action is disabled, because both arrows are
additionally guarded by `activeDays.length > 7`; so "previous is enabled if
and only if windowStart > 0" fails. -/
theorem boardPrev_counterexample :
    boardPrevEnabled [⟨0, 0⟩] 1 = false ∧ 0 < 1 := by decide

/-- C4 amended: "previous" is enabled iff more than 7 days are active and
the offset is positive (the source guards both arrows by
`activeDays.length > 7`); "next" is enabled iff `windowStart + 7 <
length(activeDays)` (the extra guard is implied); each enabled step moves
the offset by exactly one; at the boundaries (`windowStart = 0` for
previous, `windowStart + 7 ≥ length` for next) the step has no effect. -/
theorem boardNav_spec (a : List Instant) (ws : Nat) :
    (boardPrevEnabled a ws = true ↔ 7 < a.length ∧ 0 < ws)
    ∧ (boardNextEnabled a ws = true ↔ ws + 7 < a.length)
    ∧ (boardPrevEnabled a ws = true → boardPrevStep a ws + 1 = ws)
    ∧ (boardNextEnabled a ws = true → boardNextStep a ws = ws + 1)
    ∧ (ws = 0 → boardPrevStep a ws = ws)
    ∧ (a.length ≤ ws + 7 → boardNextStep a ws = ws) := by
  refine ⟨?_, ?_, ?_, ?_, ?_, ?_⟩
  · simp [boardPrevEnabled]
  · simp only [boardNextEnabled, Bool.and_eq_true, decide_eq_true_eq]
    omega
  · intro h
    have hw : 0 < ws := by
      simp only [boardPrevEnabled, Bool.and_eq_true, decide_eq_true_eq] at h
      exact h.2
    simp only [boardPrevStep, h, if_true]
    omega
  · intro h
    simp [boardNextStep, h]
  · intro h0
    subst h0
    simp [boardPrevStep, boardPrevEnabled]
  · intro hle
    have h : boardNextEnabled a ws = false := by
      simp only [boardNextEnabled, Bool.and_eq_false_iff, decide_eq_false_iff_not]
      omega
    simp [boardNextStep, h]

/-- Witness for C4 amended at a concrete input: with 8 active days and
offset 1 the "previous" action is enabled and steps the offset back to 0. -/
theorem boardNav_spec_witness :
    boardPrevEnabled (List.replicate 8 ⟨0, 0⟩) 1 = true
    ∧ boardPrevStep (List.replicate 8 ⟨0, 0⟩) 1 + 1 = 1 :=
  ⟨by decide, (boardNav_spec (List.replicate 8 ⟨0, 0⟩) 1).2.2.1 (by decide)⟩

/-- `Footer.tsx` line 91: `modalStartDate`, the Sunday starting the week of
today shifted by `modalWeekOffset * 7` days. -/
def modalStartDate (today : Instant) (weekOffset : Int) : Instant :=
  addDaysI (startOfWeek today) (weekOffset * 7)

/-- `Footer.tsx` line 92: `modalWeekDays`, the 7 consecutive days from
`modalStartDate` on, ascending. The spec calls this `modalWeek`. -/
def modalWeekDays (today : Instant) (weekOffset : Int) : List Instant :=
  (List.range 7).map (fun (i : Nat) => addDaysI (modalStartDate today weekOffset) (i : Int))

/-- C7: for every today and offset, the modal week has 7 days, starts at
`modalStartDate`, and its days are consecutive ascending; at offset 0 the
first day is the Sunday (day-of-week 0) beginning the week containing
today, so the week contains today; and increasing the offset by one moves
the first day forward by exactly 7 days. -/
theorem modalWeekDays_spec (t : Instant) :
    (∀ off : Int, (modalWeekDays t off).length = 7
      ∧ (modalWeekDays t off).head? = some (modalStartDate t off)
      ∧ List.Chain' (fun a b => b.day = a.day + 1) (modalWeekDays t off))
    ∧ modalStartDate t 0 = startOfWeek t
    ∧ dayOfWeek (startOfWeek t).day = 0
    ∧ (startOfWeek t).day ≤ t.day ∧ t.day < (startOfWeek t).day + 7
    ∧ (∃ d ∈ modalWeekDays t 0, isSameDay d t = true)
    ∧ ∀ off : Int, (modalStartDate t (off + 1)).day = (modalStartDate t off).day + 7 := by
  have hr : List.range 7 = [0, 1, 2, 3, 4, 5, 6] := rfl
  have hm0 : 0 ≤ (t.day + 4) % 7 := Int.emod_nonneg _ (by norm_num)
  have hm7 : (t.day + 4) % 7 < 7 := Int.emod_lt_of_pos _ (by norm_num)
  refine ⟨?_, ?_, ?_, ?_, ?_, ?_, ?_⟩
  · intro off
    refine ⟨by simp [modalWeekDays], ?_, ?_⟩
    · rw [modalWeekDays, hr]
      simp only [List.map_cons, List.head?_cons, Option.some.injEq]
      simp [addDaysI]
    · rw [modalWeekDays, hr]
      simp only [List.map_cons, List.map_nil, List.chain'_cons, List.chain'_singleton,
        addDaysI, and_true]
      refine ⟨?_, ?_, ?_, ?_, ?_, ?_⟩ <;> push_cast <;> ring
  · simp [modalStartDate, addDaysI]
  · simp only [startOfWeek, dayOfWeek]
    have h : t.day - (t.day + 4) % 7 + 4 = t.day + 4 - (t.day + 4) % 7 := by ring
    rw [h, Int.sub_emod, Int.emod_emod_of_dvd _ (dvd_refl (7 : Int))]
    simp
  · simp only [startOfWeek, dayOfWeek]
    omega
  · simp only [startOfWeek, dayOfWeek]
    omega
  · refine ⟨addDaysI (modalStartDate t 0) (((t.day + 4) % 7).toNat : Int), ?_, ?_⟩
    · apply List.mem_map_of_mem
      rw [List.mem_range]
      omega
    · simp only [isSameDay, addDaysI, modalStartDate, startOfWeek, dayOfWeek, beq_iff_eq]
      omega
  · intro off
    simp only [modalStartDate, addDaysI, startOfWeek]
    ring

/-!
Event-creation dialog state, `Footer.tsx` lines 70-77 and 136-176. The local
state relevant to event creation consists of the dialog-open flag, the
selected day, the title and time inputs, and the modal week offset. The
source handlers are embedded as state transformers; `handleAddEvent` also
returns the document written to the store, when any.
-/

structure ModalState where
  isModalOpen : Bool
  selectedDate : Option Instant
  newEventTitle : String
  newEventTime : String
  modalWeekOffset : Int
deriving DecidableEq, Repr

/-- Initial `useState` values, `Footer.tsx` lines 70-77. -/
def initialModalState : ModalState := ⟨false, none, "", "", 0⟩

/-- The document written by `addDoc(collection(db, "events"), ...)` in
`handleAddEvent` (the server-assigned `createdAt` field is opaque to the
core and omitted). -/
structure EventDoc where
  title : String
  time : String
  start : Instant
  endD : Instant
deriving DecidableEq, Repr

/-- `Footer.tsx` lines 136-140: clicking a board column seeds the clicked
day, resets the time input to "09:00" and opens the dialog. -/
def handleColumnClick (date : Instant) (s : ModalState) : ModalState :=
  { s with selectedDate := some date, newEventTime := "09:00", isModalOpen := true }

/-- `Footer.tsx` lines 142-147: the floating add button seeds today, resets
the week offset and the time input, and opens the dialog. -/
def handleAddEventClick (today : Instant) (s : ModalState) : ModalState :=
  { s with selectedDate := some today, modalWeekOffset := 0,
           newEventTime := "09:00", isModalOpen := true }

/-- The `onChange` handler of the title input, `Footer.tsx` line 556. -/
def setNewEventTitle (v : String) (s : ModalState) : ModalState :=
  { s with newEventTitle := v }

/-- `Footer.tsx` lines 166-172: closing the dialog resets every dialog
field. -/
def closeModal (_s : ModalState) : ModalState := ⟨false, none, "", "", 0⟩

/-- `Footer.tsx` lines 149-164: `handleAddEvent` writes an event document
with `start = end = selectedDate` exactly when a day is selected and the
title is non-empty (JavaScript truthiness of `selectedDate && newEventTitle`),
then closes the dialog; otherwise it does nothing. -/
def handleAddEvent (s : ModalState) : ModalState × Option EventDoc :=
  match s.selectedDate with
  | some d =>
    if s.newEventTitle ≠ "" then
      (closeModal s, some ⟨s.newEventTitle, s.newEventTime, d, d⟩)
    else (s, none)
  | none => (s, none)

/-- C9: `handleAddEvent` issues a creation exactly when a day is selected
and the title is non-empty; otherwise the state is unchanged and nothing is
written; when it creates, the document stores the title untrimmed (so a
whitespace-only title is accepted) together with the time and the selected
day as both start and end. -/
theorem handleAddEvent_spec (s : ModalState) :
    ((handleAddEvent s).2 ≠ none ↔ s.selectedDate ≠ none ∧ s.newEventTitle ≠ "")
    ∧ ((handleAddEvent s).2 = none → handleAddEvent s = (s, none))
    ∧ (∀ d, s.selectedDate = some d → s.newEventTitle ≠ "" →
        handleAddEvent s = (closeModal s, some ⟨s.newEventTitle, s.newEventTime, d, d⟩)) := by
  obtain ⟨o, sd, ti, tm, off⟩ := s
  by_cases ht : ti = "" <;> cases sd <;> simp [handleAddEvent, ht]

/-- Witness for C9 at a concrete input: with a selected day and the
whitespace-only title "   ", the creation goes through and stores the title
untrimmed. -/
theorem handleAddEvent_spec_witness :
    handleAddEvent ⟨true, some ⟨0, 0⟩, "   ", "09:00", 0⟩
      = (closeModal ⟨true, some ⟨0, 0⟩, "   ", "09:00", 0⟩,
         some ⟨"   ", "09:00", ⟨0, 0⟩, ⟨0, 0⟩⟩) :=
  (handleAddEvent_spec ⟨true, some ⟨0, 0⟩, "   ", "09:00", 0⟩).2.2 ⟨0, 0⟩ rfl (by decide)

/-- C5 counterexample: today = 2024-06-12 at 540 minutes past midnight
(09:00). The only visible board column is the instant `addDays(today, 0)`,
which carries the time-of-day of today; clicking it, typing the title "Gym"
and submitting creates an event whose start has time-of-day 540, not local
midnight. -/
theorem createEvent_midnight_counterexample :
    visibleBoardDays (computeActiveDays ⟨19886, 540⟩ []) 0 = [⟨19886, 540⟩]
    ∧ (handleAddEvent (setNewEventTitle "Gym"
          (handleColumnClick ⟨19886, 540⟩ initialModalState))).2
        = some ⟨"Gym", "09:00", ⟨19886, 540⟩, ⟨19886, 540⟩⟩
    ∧ (⟨19886, 540⟩ : Instant).tod ≠ 0 := by
  refine ⟨by decide, by decide, by decide⟩

/-- C5 amended: every created event has `start = end`, both equal to the
selected-day instant (hence the same calendar day); that instant is at
local midnight when the day was chosen in the dialog week grid, but a day
seeded by clicking a board column carries the time-of-day of today. -/
theorem createEvent_day_spec :
    (∀ (s s' : ModalState) (ev : EventDoc), handleAddEvent s = (s', some ev) →
        ev.start = ev.endD ∧ s.selectedDate = some ev.start)
    ∧ (∀ (t : Instant) (off : Int) (d : Instant),
        d ∈ modalWeekDays t off → d.tod = 0)
    ∧ (∀ (today : Instant) (events : List Event) (ws : Nat) (d : Instant),
        d ∈ visibleBoardDays (computeActiveDays today events) ws → d.tod = today.tod) := by
  refine ⟨?_, ?_, ?_⟩
  · intro s s' ev h
    obtain ⟨o, sd, ti, tm, off⟩ := s
    cases sd with
    | none => simp [handleAddEvent] at h
    | some d =>
      by_cases ht : ti = ""
      · simp [handleAddEvent, ht] at h
      · simp only [handleAddEvent, ht, ne_eq, not_false_eq_true, if_true, Prod.mk.injEq] at h
        obtain ⟨-, h2⟩ := h
        injection h2 with h3
        subst h3
        exact ⟨rfl, rfl⟩
  · intro t off d hd
    simp only [modalWeekDays, List.mem_map] at hd
    obtain ⟨i, -, rfl⟩ := hd
    rfl
  · intro today events ws d hd
    have hd1 : d ∈ computeActiveDays today events := by
      have h2 := List.mem_of_mem_drop hd
      exact List.mem_of_mem_take h2
    have hd2 : d ∈ boardActiveRange today := (List.mem_filter.mp hd1).1
    simp only [boardActiveRange, List.mem_map] at hd2
    obtain ⟨i, -, rfl⟩ := hd2
    rfl

/-- Witness for C5 amended at a concrete input: a concrete submission with a
selected day yields an event with equal start and end carrying the selected
instant. -/
theorem createEvent_day_spec_witness :
    (⟨"X", "", ⟨5, 7⟩, ⟨5, 7⟩⟩ : EventDoc).start = (⟨"X", "", ⟨5, 7⟩, ⟨5, 7⟩⟩ : EventDoc).endD
    ∧ (⟨true, some ⟨5, 7⟩, "X", "", 3⟩ : ModalState).selectedDate
        = some (⟨"X", "", ⟨5, 7⟩, ⟨5, 7⟩⟩ : EventDoc).start :=
  createEvent_day_spec.1 ⟨true, some ⟨5, 7⟩, "X", "", 3⟩ ⟨false, none, "", "", 0⟩
    ⟨"X", "", ⟨5, 7⟩, ⟨5, 7⟩⟩ (by decide)

/-- The document written by `addDoc(collection(db, "todos"), ...)` in
`TodoList.tsx`. -/
structure TodoDoc where
  text : String
  completed : Bool
  createdAt : Instant
deriving DecidableEq, Repr

/-- JavaScript `String.prototype.trim`: strips whitespace from both ends of
the string. -/
def jsTrim (s : String) : String :=
  String.mk (((s.data.dropWhile Char.isWhitespace).reverse.dropWhile
    Char.isWhitespace).reverse)

/-- `TodoList.tsx` lines 36-46: `addTodo` is a no-op when the input is
empty after trimming; otherwise it stores the untrimmed text with
`completed = false` and the creation instant, and clears the input. The
result is the list of issued creation calls together with the new input
state. -/
def addTodo (now : Instant) (inputValue : String) : List TodoDoc × String :=
  if jsTrim inputValue = "" then ([], inputValue)
  else ([⟨inputValue, false, now⟩], "")

/-- C8: `addTodo` on the empty or a whitespace-only input issues no store
mutation and leaves the input state unchanged; on "Buy milk" it issues
exactly one creation call carrying the text, `completed = false` and the
creation instant. -/
theorem addTodo_spec (now : Instant) :
    (∀ input : String, jsTrim input = "" → addTodo now input = ([], input))
    ∧ addTodo now "" = ([], "")
    ∧ addTodo now "   " = ([], "   ")
    ∧ addTodo now "Buy milk" = ([⟨"Buy milk", false, now⟩], "")
    ∧ (addTodo now "Buy milk").1.length = 1 := by
  refine ⟨?_, rfl, rfl, rfl, rfl⟩
  intro input h
  simp [addTodo, h]

/-- Witness for C8 at a concrete input: a tab-only input is trimmed to the
empty string and issues no creation. -/
theorem addTodo_spec_witness :
    addTodo ⟨0, 0⟩ "\t" = ([], "\t") :=
  (addTodo_spec ⟨0, 0⟩).1 "\t" (by decide)

/-!
Per-day event listing and ordering, `Footer.tsx` lines 59-65 and 345-347.
The comparator of `sortEventsByTime` is
`(a.time || "00:00").localeCompare(b.time || "00:00")`: an empty `time`
string is falsy in JavaScript and is replaced by "00:00", and
`localeCompare` on such ASCII digit-and-colon strings is plain
code-point-lexicographic comparison, embedded below as `charListLe` on the
character lists. `Array.prototype.sort` is a stable sort and is embedded as
`List.mergeSort`, which is stable.
-/

/-- Code-point-lexicographic string comparison (the behaviour of
`localeCompare` on the ASCII "HH:MM" strings this code compares). -/
def charListLe : List Char → List Char → Bool
  | [], _ => true
  | _ :: _, [] => false
  | a :: as, b :: bs =>
    if a.toNat < b.toNat then true
    else if b.toNat < a.toNat then false
    else charListLe as bs

def strLe (a b : String) : Bool := charListLe a.data b.data

/-- The sort key of `sortEventsByTime`: `a.time || "00:00"`. -/
def timeKey (e : Event) : String := if e.time = "" then "00:00" else e.time

/-- The comparator of `sortEventsByTime`: ascending by `timeKey`. -/
def eventLe (a b : Event) : Bool := strLe (timeKey a) (timeKey b)

/-- `Footer.tsx` lines 59-65: `sortEventsByTime`, a stable ascending sort
of a copy of the list by the time key. -/
def sortEventsByTime (events : List Event) : List Event := events.mergeSort eventLe

/-- `Footer.tsx` line 346: `dayEvents`, the events starting on the given
calendar day. -/
def dayEvents (events : List Event) (day : Instant) : List Event :=
  events.filter (fun e => isSameDay e.start day)

/-- `Footer.tsx` lines 345-347: the spec operation `eventsForDay`, the
same-day events sorted by time. -/
def eventsForDay (events : List Event) (day : Instant) : List Event :=
  sortEventsByTime (dayEvents events day)

theorem charListLe_trans (a b c : List Char) :
    charListLe a b = true → charListLe b c = true → charListLe a c = true := by
  induction a generalizing b c with
  | nil => intro _ _; rfl
  | cons x xs ih =>
    cases b with
    | nil => intro h; simp [charListLe] at h
    | cons y ys =>
      cases c with
      | nil => intro _ h; simp [charListLe] at h
      | cons z zs =>
        intro h1 h2
        simp only [charListLe] at h1 h2 ⊢
        by_cases hxy : x.toNat < y.toNat <;> by_cases hyx : y.toNat < x.toNat <;>
          by_cases hyz : y.toNat < z.toNat <;> by_cases hzy : z.toNat < y.toNat <;>
          by_cases hxz : x.toNat < z.toNat <;> by_cases hzx : z.toNat < x.toNat <;>
          simp_all <;>
          first
          | omega
          | exact ih ys zs h1 h2
          | exact Or.inr (ih ys zs h1 h2)

theorem charListLe_total (a b : List Char) :
    charListLe a b = true ∨ charListLe b a = true := by
  induction a generalizing b with
  | nil => left; rfl
  | cons x xs ih =>
    cases b with
    | nil => right; rfl
    | cons y ys =>
      simp only [charListLe]
      by_cases h1 : x.toNat < y.toNat
      · left; simp [h1]
      · by_cases h2 : y.toNat < x.toNat
        · right; simp [h2]
        · rw [if_neg h1, if_neg h2, if_neg h2, if_neg h1]
          exact ih ys

theorem eventLe_trans (a b c : Event) : eventLe a b → eventLe b c → eventLe a c :=
  charListLe_trans _ _ _

theorem eventLe_total (a b : Event) : eventLe a b || eventLe b a := by
  simp only [eventLe, strLe, Bool.or_eq_true]
  exact charListLe_total _ _

theorem eventLe_of_timeKey_eq {a b : Event} (hk : timeKey a = timeKey b) :
    eventLe a b = true := by
  simp only [eventLe, hk, strLe]
  rcases charListLe_total (timeKey b).data (timeKey b).data with h | h <;> exact h

/-- The sorting example of the spec: four same-day events whose `time`
fields are "14:00", "09:00", "" and "11:30", in input order. -/
def sortExampleInput : List Event :=
  [⟨"a", "A", "14:00", ⟨0, 0⟩, ⟨0, 0⟩⟩,
   ⟨"b", "B", "09:00", ⟨0, 0⟩, ⟨0, 0⟩⟩,
   ⟨"c", "C", "", ⟨0, 0⟩, ⟨0, 0⟩⟩,
   ⟨"d", "D", "11:30", ⟨0, 0⟩, ⟨0, 0⟩⟩]

unseal List.merge List.mergeSort in
theorem sortEventsByTime_example :
    (sortEventsByTime sortExampleInput).map Event.time
      = ["", "09:00", "11:30", "14:00"] := rfl

/-- C3: `eventsForDay` keeps exactly the events whose start is the same
calendar day as the given day (a permutation of the filtered input), sorts
them ascending by lexicographic comparison of the time string with a
missing time treated as "00:00", and the sort is stable: two events with
equal time key that appear in order in the input collection and pass the
day filter appear in the same order in the output; in particular the
example times ["14:00", "09:00", "", "11:30"] sort to
["", "09:00", "11:30", "14:00"]. -/
theorem eventsForDay_spec (events : List Event) (day : Instant) :
    (eventsForDay events day).Perm (dayEvents events day)
    ∧ (∀ e, e ∈ eventsForDay events day ↔ e ∈ events ∧ isSameDay e.start day = true)
    ∧ List.Pairwise (fun a b => eventLe a b = true) (eventsForDay events day)
    ∧ (∀ a b, timeKey a = timeKey b →
        isSameDay a.start day = true → isSameDay b.start day = true →
        [a, b].Sublist events → [a, b].Sublist (eventsForDay events day))
    ∧ (sortEventsByTime sortExampleInput).map Event.time
        = ["", "09:00", "11:30", "14:00"] := by
  refine ⟨List.mergeSort_perm _ _, ?_, ?_, ?_, sortEventsByTime_example⟩
  · intro e
    unfold eventsForDay sortEventsByTime dayEvents
    rw [List.mem_mergeSort, List.mem_filter]
  · exact List.sorted_mergeSort eventLe_trans eventLe_total (dayEvents events day)
  · intro a b hk ha hb hsub
    have h1 : [a, b].filter (fun e => isSameDay e.start day) = [a, b] := by
      simp [ha, hb]
    have h2 : [a, b].Sublist (dayEvents events day) := by
      rw [← h1]
      exact hsub.filter _
    exact List.pair_sublist_mergeSort eventLe_trans eventLe_total
      (eventLe_of_timeKey_eq hk) h2

/-- Witness for C3 at a concrete input: two events both lacking a time, in
input order, stay in that order in the sorted per-day listing. -/
theorem eventsForDay_spec_witness :
    [(⟨"a1", "A", "", ⟨3, 0⟩, ⟨3, 0⟩⟩ : Event), ⟨"b1", "B", "", ⟨3, 0⟩, ⟨3, 0⟩⟩].Sublist
      (eventsForDay [⟨"a1", "A", "", ⟨3, 0⟩, ⟨3, 0⟩⟩, ⟨"b1", "B", "", ⟨3, 0⟩, ⟨3, 0⟩⟩] ⟨3, 9⟩) :=
  (eventsForDay_spec
      [⟨"a1", "A", "", ⟨3, 0⟩, ⟨3, 0⟩⟩, ⟨"b1", "B", "", ⟨3, 0⟩, ⟨3, 0⟩⟩] ⟨3, 9⟩).2.2.2.1
    ⟨"a1", "A", "", ⟨3, 0⟩, ⟨3, 0⟩⟩ ⟨"b1", "B", "", ⟨3, 0⟩, ⟨3, 0⟩⟩
    rfl (by decide) (by decide) (List.Sublist.refl _)

/-!
12-hour time formatting, `Footer.tsx` lines 50-56. The source splits the
"HH:MM" string on ":", converts the two parts with `Number`, picks AM for
hours below 12 and PM otherwise, maps the hour through `hours % 12 || 12`
(JavaScript: 0 is falsy, so a zero remainder becomes 12), and renders the
minutes zero-padded to two digits. `splitOnChar` embeds
`String.prototype.split` with a single-character separator; `digitsToNat`
embeds `Number` on the nonnegative all-digit strings this code passes to
it; `padStart` embeds `String.prototype.padStart`.
-/

def splitOnChar (sep : Char) : List Char → List (List Char)
  | [] => [[]]
  | c :: cs =>
    match splitOnChar sep cs with
    | [] => [[]]
    | w :: ws => if c = sep then [] :: w :: ws else (c :: w) :: ws

def digitsToNat (l : List Char) : Nat :=
  l.foldl (fun n c => n * 10 + (c.toNat - '0'.toNat)) 0

def padStart (s : String) (n : Nat) (c : Char) : String :=
  String.mk (List.replicate (n - s.length) c) ++ s

/-- `Footer.tsx` lines 50-56: `formatTime12Hour`. -/
def formatTime12Hour (time24 : String) : String :=
  if time24 = "" then ""
  else
    let parts := (splitOnChar ':' time24.data).map String.mk
    let hours := digitsToNat (parts.headD "").data
    let minutes := digitsToNat ((parts.drop 1).headD "").data
    let period := if 12 ≤ hours then "PM" else "AM"
    let hours12 := if hours % 12 = 0 then 12 else hours % 12
    toString hours12 ++ ":" ++ padStart (toString minutes) 2 '0' ++ " " ++ period

/-- The zero-padded "HH:MM" rendering of an hour and a minute, the input
shape the claim quantifies over. -/
def hhmm (h m : Nat) : String :=
  padStart (toString h) 2 '0' ++ ":" ++ padStart (toString m) 2 '0'

set_option maxHeartbeats 1000000 in
/-- C10: `formatTime12Hour` maps the empty string to the empty string, and
every zero-padded 24-hour "HH:MM" input to its 12-hour rendering: hour 0
displays as 12 AM, hours 1-11 display unchanged with AM, hour 12 displays
as 12 PM, hours 13-23 display as the hour minus 12 with PM, and the
minutes stay zero-padded to two digits. -/
theorem formatTime12Hour_spec :
    formatTime12Hour "" = ""
    ∧ ∀ h : Nat, h < 24 → ∀ m : Nat, m < 60 →
        formatTime12Hour (hhmm h m) =
          (if h = 0 then "12"
           else if h ≤ 11 then toString h
           else if h = 12 then "12"
           else toString (h - 12))
          ++ ":" ++ padStart (toString m) 2 '0' ++ " "
          ++ (if h < 12 then "AM" else "PM") := by
  refine ⟨rfl, ?_⟩
  decide

/-- Witness for C10 at a concrete input: "15:07" renders as "3:07 PM". -/
theorem formatTime12Hour_spec_witness :
    formatTime12Hour (hhmm 15 7) = "3:07 PM" :=
  (formatTime12Hour_spec.2 15 (by decide) 7 (by decide)).trans (by decide)
